import Mathlib

/-!
Shallow embedding of the collection-partitioning and release-publishing
pipeline of `ciel` (`src/ciel/build/__init__.py`, function `push`), together
with theorems settling the specification claims about it.

Filesystem paths are modelled as lists of path components.  The version
directory's content is a list of entries (relative path, regular-file flag,
byte content).  `glob("**/*")` enumeration order is the order of that list.
-/

namespace Ciel

/-- A filesystem entry under the version directory: its path relative to the
version directory as a list of components, whether it is a regular file
(`path.is_file()`), and its byte content (meaningful for regular files). -/
structure Entry where
  rel : List String
  isFile : Bool
  content : String
deriving DecidableEq, Repr

/-- `os.path.relpath(p, vdir)` for a path `p` lying under `vdir`: drop the
leading `vdir` components. -/
def relpathFrom (vdir p : List String) : List String :=
  p.drop vdir.length

/-- Effect of `collections[k] = collections.get(k) or []` followed by
`collections[k].append(v)` on a Python dict modelled as an insertion-ordered
association list with unique keys: append `v` at the key `k`, adding the key
at the end when absent. -/
def appendToKey (k : String) (v : α) : List (String × List α) → List (String × List α)
  | [] => [(k, [v])]
  | (k₂, l) :: rest =>
    if k₂ = k then (k₂, l ++ [v]) :: rest
    else (k₂, l) :: appendToKey k v rest

/-- One iteration of the partition loop of `push` on the absolute path `p` of a
regular file: compute the path relative to the version directory, read its
second component (`path_components[1]`, an IndexError — `.error ()` — when out
of range), and either append to a library collection, skip (the `continue` on a
library not in the allow-list), or append to `"common"`. -/
def classifyFile (libraryList vdir : List String)
    (cols : List (String × List (List String))) (p : List String) :
    Except Unit (List (String × List (List String))) :=
  let relative := relpathFrom vdir p
  match relative[1]? with
  | none => .error ()
  | some c =>
    if c = "libs.ref" then
      match relative[2]? with
      | none => .error ()
      | some lib =>
        if lib ∈ libraryList then .ok (appendToKey lib p cols)
        else .ok cols
    else .ok (appendToKey "common" p cols)

/-- The partition loop of `push`, folding `classifyFile` over the file paths in
enumeration order starting from `{"common": []}`-style state `cols`. -/
def partitionAux (libraryList vdir : List String)
    (cols : List (String × List (List String))) :
    List (List String) → Except Unit (List (String × List (List String)))
  | [] => .ok cols
  | p :: rest =>
    match classifyFile libraryList vdir cols p with
    | .error e => .error e
    | .ok cols₂ => partitionAux libraryList vdir cols₂ rest

/-- Absolute paths of the regular files under the version directory, in
enumeration order: `glob("**/*")` filtered by `is_file()`. -/
def regularFilePaths (vdir : List String) (tree : List Entry) : List (List String) :=
  (tree.filter (fun e => e.isFile)).map (fun e => vdir ++ e.rel)

/-- The collection partitioning performed by `push`: starting from
`{"common": []}`, classify every regular file under the version directory.
`.error ()` models the unhandled IndexError. -/
def partition (libraryList vdir : List String) (tree : List Entry) :
    Except Unit (List (String × List (List String))) :=
  partitionAux libraryList vdir [("common", [])] (regularFilePaths vdir tree)

/-- The byte content stored on disk at relative path `r` under the version
directory (the bytes `tarfile.TarFile.add` reads for that path). -/
def contentAt (tree : List Entry) (r : List String) : String :=
  match tree.find? (fun e => decide (e.rel = r)) with
  | some e => e.content
  | none => ""

/-- One produced archive: its file name and its entries, each an internal entry
name (path components) paired with the entry's byte content. -/
structure Archive where
  name : String
  entries : List (List String × String)
deriving DecidableEq, Repr

/-- Archive file name `f"{name}.tar.zst"` for a collection. -/
def tarballName (collection : String) : String :=
  collection ++ ".tar.zst"

/-- `os.path.join(tarball_directory, f"{name}.tar.zst")`. -/
def tarballPath (tarballDirectory collection : String) : String :=
  tarballDirectory ++ "/" ++ tarballName collection

/-- The archive loop body of `push` for one collection: the archive is named
`<collection>.tar.zst` and receives the collection's files in stored order,
each under the internal name `os.path.relpath(file, version_directory)` with
its on-disk content. -/
def buildArchive (vdir : List String) (tree : List Entry)
    (collection : String) (files : List (List String)) : Archive :=
  ⟨tarballName collection,
    files.map (fun p => (relpathFrom vdir p, contentAt tree (relpathFrom vdir p)))⟩

/-- Release tag `f"{pdk_family}-{version}"`. -/
def tagOf (pdkFamily version : String) : String :=
  pdkFamily ++ "-" ++ version

/-- Library-subset defaulting in `push`: when `push_libraries` is `None` or
empty, the family's full library set is used. -/
def effectiveLibraries (allLibraries : List String) :
    Option (List String) → List String
  | none => allLibraries
  | some l => if l.length = 0 then allLibraries else l

/-- The exceptions `push` can raise, by raise site. -/
inductive PushError where
  /-- `TypeError("No GitHub token was provided.")`. -/
  | noToken
  /-- `FileNotFoundError` when the version directory is absent. -/
  | versionNotFound
  /-- IndexError from `path_components[1]` or `path_components[2]`. -/
  | indexError
  /-- `subprocess.check_call` failure while uploading the named asset. -/
  | uploadFailed (asset : String)
deriving DecidableEq, Repr

/-- Observable effects of one `push` invocation: archives written to the
tarball directory, the release tag (once computed), the tarball paths whose
upload completed, and the overall outcome. -/
structure PushTrace where
  archives : List Archive
  tag : Option String
  uploaded : List String
  outcome : Except PushError Unit
deriving Repr

/-- The sequential upload loop of `push`: call the transport on each tarball
path in order; a failure aborts the loop with the remaining uploads never
attempted.  Returns the successfully uploaded paths and the outcome. -/
def uploadAll (uploadOk : String → Bool) :
    List String → List String × Except PushError Unit
  | [] => ([], .ok ())
  | a :: rest =>
    if uploadOk a then
      let r := uploadAll uploadOk rest
      (a :: r.1, r.2)
    else
      ([], .error (.uploadFailed a))

/-- The `push` pipeline: token check, library-subset defaulting, version
directory check, collection partitioning, archive building, tag computation,
and sequential asset upload, in source order. -/
def push (githubToken : Option String) (allLibraries : List String)
    (pushLibraries : Option (List String)) (pdkFamily version : String)
    (versionDirIsDir : Bool) (versionDirectory : List String)
    (tree : List Entry) (tarballDirectory : String)
    (uploadOk : String → Bool) : PushTrace :=
  if githubToken = none then ⟨[], none, [], .error .noToken⟩
  else
    let libraryList := effectiveLibraries allLibraries pushLibraries
    if versionDirIsDir = false then ⟨[], none, [], .error .versionNotFound⟩
    else
      match partition libraryList versionDirectory tree with
      | .error _ => ⟨[], none, [], .error .indexError⟩
      | .ok collections =>
        let archives := collections.map
          (fun c => buildArchive versionDirectory tree c.1 c.2)
        let finalTarballs := collections.map
          (fun c => tarballPath tarballDirectory c.1)
        let tag := tagOf pdkFamily version
        let up := uploadAll uploadOk finalTarballs
        ⟨archives, some tag, up.1, up.2⟩

/-- Relative paths on which the loop body raises IndexError: no second
component (`path_components[1]` out of range), or second component
`"libs.ref"` with no third component (`path_components[2]` out of range). -/
def relpathFails (r : List String) : Bool :=
  match r[1]? with
  | none => true
  | some c => if c = "libs.ref" then r[2]?.isNone else false

/-- Relative paths the loop silently skips: second component `"libs.ref"` with
a third component that is not in the allow-list. -/
def relpathDropped (libraryList : List String) (r : List String) : Bool :=
  match r[1]? with
  | none => false
  | some c =>
    if c = "libs.ref" then
      match r[2]? with
      | none => false
      | some lib => !decide (lib ∈ libraryList)
    else false

/-- Relative paths the loop appends to some collection. -/
def relpathKept (libraryList : List String) (r : List String) : Bool :=
  !relpathFails r && !relpathDropped libraryList r

/-- All file paths stored across the collections, in collection-then-list
order. -/
def allStored (cols : List (String × List (List String))) : List (List String) :=
  (cols.map Prod.snd).flatten

/-- All entries across a list of archives. -/
def archiveEntriesAll (archives : List Archive) : List (List String × String) :=
  (archives.map Archive.entries).flatten

/-- The paths the partition keeps, in enumeration order. -/
def keptPaths (libraryList vdir : List String) (tree : List Entry) :
    List (List String) :=
  (regularFilePaths vdir tree).filter
    (fun p => relpathKept libraryList (relpathFrom vdir p))

theorem relpathFrom_append (vdir r : List String) :
    relpathFrom vdir (vdir ++ r) = r := by
  simp [relpathFrom]

theorem allStored_appendToKey (k : String) (v : List String)
    (cols : List (String × List (List String))) :
    (allStored (appendToKey k v cols)).Perm (v :: allStored cols) := by
  induction cols with
  | nil => simp [appendToKey, allStored]
  | cons hd tl ih =>
    obtain ⟨k₂, l⟩ := hd
    by_cases h : k₂ = k
    · simp only [appendToKey, if_pos h, allStored, List.map_cons, List.flatten_cons]
      rw [List.append_assoc]
      exact List.perm_middle
    · simp only [appendToKey, if_neg h, allStored, List.map_cons, List.flatten_cons]
      exact (List.Perm.append_left l ih).trans List.perm_middle

/-- Exhaustive case analysis of one loop iteration: IndexError, append to some
collection, or silent skip, matching the three path predicates. -/
theorem classifyFile_cases (ll vdir : List String)
    (cols : List (String × List (List String))) (p : List String) :
    (relpathFails (relpathFrom vdir p) = true ∧
      classifyFile ll vdir cols p = .error ()) ∨
    (relpathKept ll (relpathFrom vdir p) = true ∧
      ∃ k, classifyFile ll vdir cols p = .ok (appendToKey k p cols)) ∨
    (relpathDropped ll (relpathFrom vdir p) = true ∧
      relpathKept ll (relpathFrom vdir p) = false ∧
      classifyFile ll vdir cols p = .ok cols) := by
  cases h₁ : (relpathFrom vdir p)[1]? with
  | none =>
    refine Or.inl ⟨?_, ?_⟩ <;> simp [classifyFile, relpathFails, h₁]
  | some c =>
    by_cases hc : c = "libs.ref"
    · cases h₂ : (relpathFrom vdir p)[2]? with
      | none =>
        refine Or.inl ⟨?_, ?_⟩ <;> simp [classifyFile, relpathFails, h₁, h₂, hc]
      | some lib =>
        by_cases hl : lib ∈ ll
        · refine Or.inr (Or.inl ⟨?_, ⟨lib, ?_⟩⟩) <;>
            simp [classifyFile, relpathKept, relpathFails, relpathDropped,
              h₁, h₂, hc, hl]
        · refine Or.inr (Or.inr ⟨?_, ?_, ?_⟩) <;>
            simp [classifyFile, relpathKept, relpathFails, relpathDropped,
              h₁, h₂, hc, hl]
    · refine Or.inr (Or.inl ⟨?_, ⟨"common", ?_⟩⟩) <;>
        simp [classifyFile, relpathKept, relpathFails, relpathDropped, h₁, hc]

/-- A successful run of the partition loop stores, up to permutation, exactly
the kept input paths on top of what was already stored. -/
theorem partitionAux_ok_perm (ll vdir : List String) :
    ∀ (files : List (List String)) (cols cols₂ : List (String × List (List String))),
      partitionAux ll vdir cols files = .ok cols₂ →
      (allStored cols₂).Perm
        ((files.filter (fun p => relpathKept ll (relpathFrom vdir p))) ++
          allStored cols) := by
  intro files
  induction files with
  | nil =>
    intro cols cols₂ h
    simp only [partitionAux] at h
    cases h
    simp
  | cons p rest ih =>
    intro cols cols₂ h
    simp only [partitionAux] at h
    rcases classifyFile_cases ll vdir cols p with
      ⟨hf, he⟩ | ⟨hk, k, he⟩ | ⟨hd, hk, he⟩
    · rw [he] at h
      exact absurd h (by simp)
    · rw [he] at h
      have hp := ih _ _ h
      have hfc : List.filter (fun q => relpathKept ll (relpathFrom vdir q))
          (p :: rest) =
          p :: List.filter (fun q => relpathKept ll (relpathFrom vdir q)) rest := by
        simp [List.filter_cons, hk]
      rw [hfc]
      refine hp.trans ?_
      refine ((List.Perm.append_left _ (allStored_appendToKey k p cols)).trans ?_)
      exact List.perm_middle
    · rw [he] at h
      have hp := ih _ _ h
      have hfc : List.filter (fun q => relpathKept ll (relpathFrom vdir q))
          (p :: rest) =
          List.filter (fun q => relpathKept ll (relpathFrom vdir q)) rest := by
        simp [List.filter_cons, hk]
      rw [hfc]
      exact hp

/-- A successful partition stores, up to permutation, exactly the kept regular
file paths. -/
theorem partition_ok_perm (ll vdir : List String) (tree : List Entry)
    (cols : List (String × List (List String)))
    (h : partition ll vdir tree = .ok cols) :
    (allStored cols).Perm (keptPaths ll vdir tree) := by
  have hp := partitionAux_ok_perm ll vdir _ _ _ h
  simpa [allStored, keptPaths] using hp

theorem relpathFails_not_dropped (ll : List String) (r : List String)
    (h : relpathFails r = true) : relpathDropped ll r = false := by
  cases h₁ : r[1]? with
  | none => simp [relpathDropped, h₁]
  | some c =>
    by_cases hc : c = "libs.ref"
    · cases h₂ : r[2]? with
      | none => simp [relpathDropped, h₁, h₂, hc]
      | some lib => simp [relpathFails, h₁, h₂, hc] at h
    · simp [relpathDropped, h₁, hc]

theorem relpathFails_not_kept (ll : List String) (r : List String)
    (h : relpathFails r = true) : relpathKept ll r = false := by
  simp [relpathKept, h]

/-- If any path in the remaining input triggers the IndexError condition, the
partition loop ends in the error, whatever the accumulated state. -/
theorem partitionAux_error_of_fails (ll vdir : List String) :
    ∀ (files : List (List String)) (cols : List (String × List (List String)))
      (p : List String), p ∈ files → relpathFails (relpathFrom vdir p) = true →
      partitionAux ll vdir cols files = .error () := by
  intro files
  induction files with
  | nil => intro cols p hp; cases hp
  | cons q rest ih =>
    intro cols p hp hf
    rcases List.mem_cons.mp hp with hq | hq
    · subst hq
      rcases classifyFile_cases ll vdir cols p with
        ⟨_, he⟩ | ⟨hk, _, _⟩ | ⟨hd, _, _⟩
      · simp [partitionAux, he]
      · rw [relpathFails_not_kept ll _ hf] at hk; cases hk
      · rw [relpathFails_not_dropped ll _ hf] at hd; cases hd
    · rcases classifyFile_cases ll vdir cols q with
        ⟨_, he⟩ | ⟨_, k, he⟩ | ⟨_, _, he⟩
      · simp [partitionAux, he]
      · simp only [partitionAux, he]
        exact ih _ p hq hf
      · simp only [partitionAux, he]
        exact ih _ p hq hf

/-- Membership behind a regular-file path: it is the version directory plus
the relative path of a regular tree entry. -/
theorem mem_regularFilePaths (vdir : List String) (tree : List Entry)
    (p : List String) :
    p ∈ regularFilePaths vdir tree ↔
      ∃ e, e ∈ tree ∧ e.isFile = true ∧ p = vdir ++ e.rel := by
  unfold regularFilePaths
  simp only [List.mem_map, List.mem_filter]
  constructor
  · rintro ⟨e, ⟨he, hf⟩, rfl⟩
    exact ⟨e, he, hf, rfl⟩
  · rintro ⟨e, he, hf, rfl⟩
    exact ⟨e, ⟨he, hf⟩, rfl⟩

theorem regularFilePaths_nodup (vdir : List String) (tree : List Entry)
    (h : (tree.map Entry.rel).Nodup) :
    (regularFilePaths vdir tree).Nodup := by
  unfold regularFilePaths
  have h₂ : ((tree.filter (fun e => e.isFile)).map Entry.rel).Nodup :=
    h.sublist ((tree.filter_sublist (p := fun e => e.isFile)).map Entry.rel)
  have h₃ : (tree.filter (fun e => e.isFile)).map (fun e => vdir ++ e.rel) =
      ((tree.filter (fun e => e.isFile)).map Entry.rel).map
        (fun r => vdir ++ r) := by
    simp [List.map_map, Function.comp]
  rw [h₃]
  exact h₂.map (fun a b hab => List.append_cancel_left hab)

/-- What it means to be a kept path: the absolute path of a regular tree
entry whose relative path the loop neither fails on nor skips. -/
theorem mem_keptPaths (ll vdir : List String) (tree : List Entry)
    (p : List String) :
    p ∈ keptPaths ll vdir tree ↔
      ∃ e, e ∈ tree ∧ e.isFile = true ∧ p = vdir ++ e.rel ∧
        relpathKept ll e.rel = true := by
  unfold keptPaths
  simp only [List.mem_filter, mem_regularFilePaths]
  constructor
  · rintro ⟨⟨e, he, hf, rfl⟩, hk⟩
    rw [relpathFrom_append] at hk
    exact ⟨e, he, hf, rfl, hk⟩
  · rintro ⟨e, he, hf, rfl, hk⟩
    refine ⟨⟨e, he, hf, rfl⟩, ?_⟩
    rw [relpathFrom_append]
    exact hk

/-- A path is stored by a successful partition iff it is kept. -/
theorem mem_allStored_iff (ll vdir : List String) (tree : List Entry)
    (cols : List (String × List (List String)))
    (hok : partition ll vdir tree = .ok cols) (p : List String) :
    p ∈ allStored cols ↔ p ∈ keptPaths ll vdir tree :=
  (partition_ok_perm ll vdir tree cols hok).mem_iff

/-- On a duplicate-free tree, a successful partition stores no path twice —
neither twice in one collection nor in two collections. -/
theorem allStored_nodup (ll vdir : List String) (tree : List Entry)
    (cols : List (String × List (List String)))
    (hnd : (tree.map Entry.rel).Nodup)
    (hok : partition ll vdir tree = .ok cols) :
    (allStored cols).Nodup := by
  rw [(partition_ok_perm ll vdir tree cols hok).nodup_iff]
  exact (regularFilePaths_nodup vdir tree hnd).filter _

/-- `appendToKey` keeps the first key in place. -/
theorem appendToKey_cons (k : String) (v : List String) (k₀ : String)
    (l₀ : List (List String)) (rest : List (String × List (List String))) :
    ∃ l₁ rest₁, appendToKey k v ((k₀, l₀) :: rest) = (k₀, l₁) :: rest₁ := by
  by_cases h : k₀ = k
  · exact ⟨l₀ ++ [v], rest, by simp [appendToKey, h]⟩
  · exact ⟨l₀, appendToKey k v rest, by simp [appendToKey, h]⟩

/-- The loop never removes the `"common"` collection from the head of the
state. -/
theorem partitionAux_common_head (ll vdir : List String) :
    ∀ (files : List (List String)) (cols cols₂ : List (String × List (List String))),
      partitionAux ll vdir cols files = .ok cols₂ →
      (∃ l rest, cols = ("common", l) :: rest) →
      ∃ l rest, cols₂ = ("common", l) :: rest := by
  intro files
  induction files with
  | nil =>
    intro cols cols₂ h hc
    simp only [partitionAux] at h
    cases h
    exact hc
  | cons p rest ih =>
    intro cols cols₂ h hc
    obtain ⟨l, rest₀, rfl⟩ := hc
    simp only [partitionAux] at h
    rcases classifyFile_cases ll vdir (("common", l) :: rest₀) p with
      ⟨_, he⟩ | ⟨_, k, he⟩ | ⟨_, _, he⟩
    · rw [he] at h; exact absurd h (by simp)
    · rw [he] at h
      obtain ⟨l₁, rest₁, hk⟩ := appendToKey_cons k p "common" l rest₀
      rw [hk] at h
      exact ih _ _ h ⟨l₁, rest₁, rfl⟩
    · rw [he] at h
      exact ih _ _ h ⟨l, rest₀, rfl⟩

/-- A successful partition has the `"common"` collection first. -/
theorem partition_common_head (ll vdir : List String) (tree : List Entry)
    (cols : List (String × List (List String)))
    (hok : partition ll vdir tree = .ok cols) :
    ∃ l rest, cols = ("common", l) :: rest :=
  partitionAux_common_head ll vdir _ _ _ hok ⟨[], [("common", [])].tail, rfl⟩

/-- On a tree without duplicate relative paths, the disk read behind an
entry's relative path returns that entry's content. -/
theorem contentAt_eq (tree : List Entry) (hnd : (tree.map Entry.rel).Nodup)
    (e : Entry) (he : e ∈ tree) : contentAt tree e.rel = e.content := by
  induction tree with
  | nil => cases he
  | cons hd tl ih =>
    rw [List.map_cons, List.nodup_cons] at hnd
    rcases List.mem_cons.mp he with rfl | htl
    · simp [contentAt, List.find?_cons]
    · have hne : ¬hd.rel = e.rel := by
        intro hcontra
        exact hnd.1 (hcontra ▸ List.mem_map_of_mem Entry.rel htl)
      have hstep : contentAt (hd :: tl) e.rel = contentAt tl e.rel := by
        simp [contentAt, List.find?_cons, hne]
      rw [hstep]
      exact ih hnd.2 htl

/-- The entries of all produced archives are exactly the stored paths, each
replaced by its relative path paired with its on-disk content. -/
theorem archiveEntriesAll_eq (vdir : List String) (tree : List Entry)
    (cols : List (String × List (List String))) :
    archiveEntriesAll (cols.map (fun c => buildArchive vdir tree c.1 c.2)) =
      (allStored cols).map
        (fun p => (relpathFrom vdir p, contentAt tree (relpathFrom vdir p))) := by
  simp only [archiveEntriesAll, buildArchive, allStored, List.map_map,
    List.map_flatten]
  rfl

/-- The upload loop on its first failure: the failing asset is reported, the
assets before it were uploaded, and nothing after it was. -/
theorem uploadAll_first_failure (uploadOk : String → Bool) :
    ∀ (paths : List String) (j : Nat), j < paths.length →
      (∀ i, i < j → uploadOk (paths.getD i "") = true) →
      uploadOk (paths.getD j "") = false →
      uploadAll uploadOk paths =
        (paths.take j, .error (.uploadFailed (paths.getD j ""))) := by
  intro paths
  induction paths with
  | nil => intro j hj _ _; exact absurd hj (Nat.not_lt_zero j)
  | cons a rest ih =>
    intro j hj hbefore hfail
    cases j with
    | zero =>
      simp only [List.getD_cons_zero] at hfail
      simp [uploadAll, hfail]
    | succ j =>
      have ha : uploadOk a = true := by
        have h0 := hbefore 0 (Nat.succ_pos j)
        simpa using h0
      have hr := ih j (Nat.lt_of_succ_lt_succ hj)
        (fun i hi => by simpa using hbefore (i + 1) (Nat.succ_lt_succ hi))
        (by simpa using hfail)
      simp [uploadAll, ha, hr]

theorem effectiveLibraries_none (allLibraries : List String) :
    effectiveLibraries allLibraries none = allLibraries := rfl

theorem effectiveLibraries_some_nil (allLibraries : List String) :
    effectiveLibraries allLibraries (some []) = allLibraries := rfl

theorem effectiveLibraries_self (allLibraries : List String) :
    effectiveLibraries allLibraries (some allLibraries) = allLibraries := by
  unfold effectiveLibraries
  by_cases h : allLibraries.length = 0 <;> simp [h]

/-- Unfolding of `push` on the path where the token is present, the version
directory exists and the partition succeeds. -/
theorem push_ok_unfold (tok : String) (allLibraries : List String)
    (pushLibraries : Option (List String)) (pdkFamily version : String)
    (vdir : List String) (tree : List Entry) (tdir : String)
    (uploadOk : String → Bool) (cols : List (String × List (List String)))
    (hok : partition (effectiveLibraries allLibraries pushLibraries) vdir tree =
      .ok cols) :
    push (some tok) allLibraries pushLibraries pdkFamily version true vdir tree
        tdir uploadOk =
      ⟨cols.map (fun c => buildArchive vdir tree c.1 c.2),
        some (tagOf pdkFamily version),
        (uploadAll uploadOk (cols.map (fun c => tarballPath tdir c.1))).1,
        (uploadAll uploadOk (cols.map (fun c => tarballPath tdir c.1))).2⟩ := by
  simp [push, hok]

/-- Unfolding of `push` on the path where the partition hits the IndexError. -/
theorem push_index_error_unfold (tok : String) (allLibraries : List String)
    (pushLibraries : Option (List String)) (pdkFamily version : String)
    (vdir : List String) (tree : List Entry) (tdir : String)
    (uploadOk : String → Bool)
    (hbad : partition (effectiveLibraries allLibraries pushLibraries) vdir tree =
      .error ()) :
    push (some tok) allLibraries pushLibraries pdkFamily version true vdir tree
        tdir uploadOk = ⟨[], none, [], .error .indexError⟩ := by
  simp [push, hbad]

/-- C1, counterexample: the version tree with the single regular file
`x/libs.ref/lib2/y.lef` and the empty allow-list partitions successfully, yet
the resulting collections store no file at all — the file is assigned to zero
collections, refuting "no file is dropped". -/
theorem claim1_partition_not_total_cex :
    partition [] ["v"] [⟨["x", "libs.ref", "lib2", "y.lef"], true, "B"⟩] =
      .ok [("common", [])] ∧
    (Entry.mk ["x", "libs.ref", "lib2", "y.lef"] true "B").isFile = true ∧
    allStored [("common", [])] = [] :=
  ⟨rfl, rfl, rfl⟩

/-- C1, amended: on a duplicate-free version tree whose partition completes,
no file is stored twice (neither twice in one collection nor in two
collections), every regular file the loop keeps is assigned to a collection,
and every regular file under the library-marker segment whose library is
outside the allow-list is assigned to none. -/
theorem claim1_partition_exactly_once (ll vdir : List String) (tree : List Entry)
    (cols : List (String × List (List String)))
    (hnd : (tree.map Entry.rel).Nodup)
    (hok : partition ll vdir tree = .ok cols)
    (e : Entry) (he : e ∈ tree) (hf : e.isFile = true) :
    (allStored cols).Nodup ∧
    (relpathKept ll e.rel = true → vdir ++ e.rel ∈ allStored cols) ∧
    (relpathDropped ll e.rel = true → vdir ++ e.rel ∉ allStored cols) := by
  refine ⟨allStored_nodup ll vdir tree cols hnd hok, ?_, ?_⟩
  · intro hk
    rw [mem_allStored_iff ll vdir tree cols hok]
    exact (mem_keptPaths ll vdir tree _).mpr ⟨e, he, hf, rfl, hk⟩
  · intro hd hmem
    rw [mem_allStored_iff ll vdir tree cols hok] at hmem
    obtain ⟨e₂, _, _, heq, hk⟩ := (mem_keptPaths ll vdir tree _).mp hmem
    have hrel : e.rel = e₂.rel := List.append_cancel_left heq
    rw [← hrel] at hk
    simp [relpathKept, hd] at hk

/-- C1, witness for the amended theorem at a concrete tree. -/
theorem claim1_partition_exactly_once_witness :
    (allStored [("common", [[ "v", "pdk", "a.txt" ]])]).Nodup ∧
    (relpathKept ["lib1"] ["pdk", "a.txt"] = true →
      ["v"] ++ ["pdk", "a.txt"] ∈ allStored [("common", [[ "v", "pdk", "a.txt" ]])]) ∧
    (relpathDropped ["lib1"] ["pdk", "a.txt"] = true →
      ["v"] ++ ["pdk", "a.txt"] ∉ allStored [("common", [[ "v", "pdk", "a.txt" ]])]) :=
  claim1_partition_exactly_once ["lib1"] ["v"]
    [⟨["pdk", "a.txt"], true, "A"⟩] [("common", [[ "v", "pdk", "a.txt" ]])]
    (by decide) rfl ⟨["pdk", "a.txt"], true, "A"⟩ (by decide) rfl

/-- C2, counterexample: on the claim's example tree the partition raises the
IndexError on `a.txt` (so it does not produce the claimed collections), and on
the repaired tree — the same paths one level below the version root — the
excluded library file `pdk/libs.ref/lib2/y.lef` is omitted from every
collection rather than appended to `"common"`. -/
theorem claim2_excluded_to_common_cex :
    partition ["lib1"] ["v"]
      [⟨["a.txt"], true, "A"⟩, ⟨["libs.ref", "lib1", "x.lef"], true, "X"⟩,
        ⟨["libs.ref", "lib2", "y.lef"], true, "Y"⟩] = .error () ∧
    partition ["lib1"] ["v"]
      [⟨["pdk", "a.txt"], true, "A"⟩,
        ⟨["pdk", "libs.ref", "lib1", "x.lef"], true, "X"⟩,
        ⟨["pdk", "libs.ref", "lib2", "y.lef"], true, "Y"⟩] =
      .ok [("common", [[ "v", "pdk", "a.txt" ]]),
        ("lib1", [[ "v", "pdk", "libs.ref", "lib1", "x.lef" ]])] :=
  ⟨rfl, rfl⟩

/-- C2, amended: a regular file under the library-marker segment whose library
is not in the allow-list is omitted from every collection — in particular it
is not appended to `"common"`. -/
theorem claim2_excluded_omitted (ll vdir : List String) (tree : List Entry)
    (cols : List (String × List (List String)))
    (hok : partition ll vdir tree = .ok cols)
    (p : List String) (hdrop : relpathDropped ll (relpathFrom vdir p) = true) :
    p ∉ allStored cols := by
  intro hmem
  rw [mem_allStored_iff ll vdir tree cols hok] at hmem
  obtain ⟨e, _, _, rfl, hk⟩ := (mem_keptPaths ll vdir tree _).mp hmem
  rw [relpathFrom_append] at hdrop
  simp [relpathKept, hdrop] at hk

/-- C2, witness for the amended theorem at the repaired example tree. -/
theorem claim2_excluded_omitted_witness :
    ["v", "pdk", "libs.ref", "lib2", "y.lef"] ∉
      allStored [("common", [[ "v", "pdk", "a.txt" ]]),
        ("lib1", [[ "v", "pdk", "libs.ref", "lib1", "x.lef" ]])] :=
  claim2_excluded_omitted ["lib1"] ["v"]
    [⟨["pdk", "a.txt"], true, "A"⟩,
      ⟨["pdk", "libs.ref", "lib1", "x.lef"], true, "X"⟩,
      ⟨["pdk", "libs.ref", "lib2", "y.lef"], true, "Y"⟩]
    [("common", [[ "v", "pdk", "a.txt" ]]),
      ("lib1", [[ "v", "pdk", "libs.ref", "lib1", "x.lef" ]])]
    rfl ["v", "pdk", "libs.ref", "lib2", "y.lef"] (by decide)

/-- C3, counterexample: for the tree with the single regular file
`x/libs.ref/lib2/y.lef` and the empty allow-list, the produced archives
carry no entries at all, so their union does not reconstruct the version
tree's file set. -/
theorem claim3_roundtrip_cex :
    partition [] ["v"] [⟨["x", "libs.ref", "lib2", "y.lef"], true, "B"⟩] =
      .ok [("common", [])] ∧
    archiveEntriesAll ([("common", ([] : List (List String)))].map
      (fun c => buildArchive ["v"]
        [⟨["x", "libs.ref", "lib2", "y.lef"], true, "B"⟩] c.1 c.2)) = [] :=
  ⟨rfl, rfl⟩

/-- C3, amended: on a duplicate-free version tree whose partition completes,
the union of the produced archives' entries is exactly the set of regular
files that the partition keeps (all regular files except those under the
library-marker segment whose library is outside the allow-list), keyed by
relative path with their on-disk content. -/
theorem claim3_roundtrip_kept (ll vdir : List String) (tree : List Entry)
    (cols : List (String × List (List String)))
    (hnd : (tree.map Entry.rel).Nodup)
    (hok : partition ll vdir tree = .ok cols) (r : List String) (c : String) :
    (r, c) ∈ archiveEntriesAll
        (cols.map (fun col => buildArchive vdir tree col.1 col.2)) ↔
      ∃ e, e ∈ tree ∧ e.isFile = true ∧ relpathKept ll e.rel = true ∧
        e.rel = r ∧ e.content = c := by
  rw [archiveEntriesAll_eq]
  simp only [List.mem_map]
  constructor
  · rintro ⟨p, hp, hpc⟩
    rw [mem_allStored_iff ll vdir tree cols hok] at hp
    obtain ⟨e, he, hf, rfl, hk⟩ := (mem_keptPaths ll vdir tree _).mp hp
    rw [relpathFrom_append, contentAt_eq tree hnd e he] at hpc
    injection hpc with hr hc
    exact ⟨e, he, hf, hk, hr, hc⟩
  · rintro ⟨e, he, hf, hk, rfl, rfl⟩
    refine ⟨vdir ++ e.rel, ?_, ?_⟩
    · rw [mem_allStored_iff ll vdir tree cols hok]
      exact (mem_keptPaths ll vdir tree _).mpr ⟨e, he, hf, rfl, hk⟩
    · rw [relpathFrom_append, contentAt_eq tree hnd e he]

/-- C3, witness for the amended theorem at a concrete tree and entry. -/
theorem claim3_roundtrip_kept_witness :
    (["pdk", "a.txt"], "A") ∈ archiveEntriesAll
        ([("common", [[ "v", "pdk", "a.txt" ]]),
          ("lib1", [[ "v", "pdk", "libs.ref", "lib1", "x.lef" ]])].map
          (fun col => buildArchive ["v"]
            [⟨["pdk", "a.txt"], true, "A"⟩,
              ⟨["pdk", "libs.ref", "lib1", "x.lef"], true, "X"⟩,
              ⟨["pdk", "libs.ref", "lib2", "y.lef"], true, "Y"⟩] col.1 col.2)) ↔
      ∃ e, e ∈ ([⟨["pdk", "a.txt"], true, "A"⟩,
          ⟨["pdk", "libs.ref", "lib1", "x.lef"], true, "X"⟩,
          ⟨["pdk", "libs.ref", "lib2", "y.lef"], true, "Y"⟩] : List Entry) ∧
        e.isFile = true ∧ relpathKept ["lib1"] e.rel = true ∧
        e.rel = ["pdk", "a.txt"] ∧ e.content = "A" :=
  claim3_roundtrip_kept ["lib1"] ["v"]
    [⟨["pdk", "a.txt"], true, "A"⟩,
      ⟨["pdk", "libs.ref", "lib1", "x.lef"], true, "X"⟩,
      ⟨["pdk", "libs.ref", "lib2", "y.lef"], true, "Y"⟩]
    [("common", [[ "v", "pdk", "a.txt" ]]),
      ("lib1", [[ "v", "pdk", "libs.ref", "lib1", "x.lef" ]])]
    (by decide) rfl ["pdk", "a.txt"] "A"

/-- C4: the partition reads the second path component unconditionally, so any
version tree containing a regular file whose relative path has a single
component, or exactly two components with the second equal to `"libs.ref"`,
makes the partition — and hence `push`, for any token, allow-list and
directories — end in the unhandled IndexError before completing, with no
archive created. -/
theorem claim4_short_path_index_error (vdir : List String) (tree : List Entry)
    (e : Entry) (he : e ∈ tree) (hf : e.isFile = true)
    (hshort : e.rel.length = 1 ∨
      (e.rel.length = 2 ∧ e.rel[1]? = some "libs.ref")) :
    (∀ libraryList, partition libraryList vdir tree = .error ()) ∧
    (∀ tok allLibraries pushLibraries pdkFamily version tdir uploadOk,
      push (some tok) allLibraries pushLibraries pdkFamily version true vdir
        tree tdir uploadOk = ⟨[], none, [], .error .indexError⟩) := by
  have hfails : relpathFails e.rel = true := by
    rcases hshort with h₁ | ⟨h₂, hr⟩
    · have hn : e.rel[1]? = none := by
        rw [List.getElem?_eq_none_iff]
        omega
      simp [relpathFails, hn]
    · have hn : e.rel[2]? = none := by
        rw [List.getElem?_eq_none_iff]
        omega
      simp [relpathFails, hr, hn]
  have herr : ∀ ll, partition ll vdir tree = .error () := by
    intro ll
    unfold partition
    refine partitionAux_error_of_fails ll vdir (regularFilePaths vdir tree)
      [("common", [])] (vdir ++ e.rel) ?_ ?_
    · exact (mem_regularFilePaths vdir tree _).mpr ⟨e, he, hf, rfl⟩
    · rw [relpathFrom_append]
      exact hfails
  refine ⟨herr, ?_⟩
  intro tok allLibraries pushLibraries pdkFamily version tdir uploadOk
  exact push_index_error_unfold tok allLibraries pushLibraries pdkFamily
    version vdir tree tdir uploadOk (herr _)

/-- C4, witness: a top-level file and a two-component marker path each raise
the IndexError at a concrete invocation. -/
theorem claim4_short_path_index_error_witness :
    partition ["lib1"] ["v"] [⟨["a.txt"], true, "A"⟩] = .error () ∧
    push (some "t") ["lib1"] none "sky130" "1.0" true ["v"]
      [⟨["a.txt"], true, "A"⟩] "td" (fun _ => true) =
      ⟨[], none, [], .error .indexError⟩ ∧
    partition ["lib1"] ["v"] [⟨["x", "libs.ref"], true, "A"⟩] = .error () :=
  ⟨(claim4_short_path_index_error ["v"] [⟨["a.txt"], true, "A"⟩]
      ⟨["a.txt"], true, "A"⟩ (by decide) rfl (Or.inl rfl)).1 ["lib1"],
    (claim4_short_path_index_error ["v"] [⟨["a.txt"], true, "A"⟩]
      ⟨["a.txt"], true, "A"⟩ (by decide) rfl (Or.inl rfl)).2 "t" ["lib1"] none
      "sky130" "1.0" "td" (fun _ => true),
    (claim4_short_path_index_error ["v"] [⟨["x", "libs.ref"], true, "A"⟩]
      ⟨["x", "libs.ref"], true, "A"⟩ (by decide) rfl
      (Or.inr ⟨rfl, rfl⟩)).1 ["lib1"]⟩

/-- C5: with no GitHub token, `push` raises the authentication error before
any partitioning, archive creation or upload: the trace shows no archive
created, no tag computed and nothing uploaded. -/
theorem claim5_no_token_fails_first (allLibraries : List String)
    (pushLibraries : Option (List String)) (pdkFamily version : String)
    (versionDirIsDir : Bool) (versionDirectory : List String)
    (tree : List Entry) (tarballDirectory : String) (uploadOk : String → Bool) :
    push none allLibraries pushLibraries pdkFamily version versionDirIsDir
      versionDirectory tree tarballDirectory uploadOk =
      ⟨[], none, [], .error .noToken⟩ := rfl

/-- C6: when the upload of the `j`-th tarball fails and the ones before it
succeeded, `push` surfaces the failing asset's error, the assets uploaded
before the failure are exactly the first `j` tarballs (they remain published;
no rollback), and no later tarball is uploaded. -/
theorem claim6_upload_failure_aborts (tok : String) (allLibraries : List String)
    (pushLibraries : Option (List String)) (pdkFamily version : String)
    (vdir : List String) (tree : List Entry) (tdir : String)
    (uploadOk : String → Bool) (cols : List (String × List (List String)))
    (paths : List String) (j : Nat)
    (hok : partition (effectiveLibraries allLibraries pushLibraries) vdir tree =
      .ok cols)
    (hpaths : paths = cols.map (fun c => tarballPath tdir c.1))
    (hj : j < paths.length)
    (hbefore : ∀ i, i < j → uploadOk (paths.getD i "") = true)
    (hfail : uploadOk (paths.getD j "") = false) :
    (push (some tok) allLibraries pushLibraries pdkFamily version true vdir
        tree tdir uploadOk).outcome =
      .error (.uploadFailed (paths.getD j "")) ∧
    (push (some tok) allLibraries pushLibraries pdkFamily version true vdir
        tree tdir uploadOk).uploaded = paths.take j := by
  have hup := uploadAll_first_failure uploadOk paths j hj hbefore hfail
  rw [push_ok_unfold tok allLibraries pushLibraries pdkFamily version vdir
    tree tdir uploadOk cols hok]
  rw [← hpaths, hup]
  exact ⟨rfl, rfl⟩

/-- C6, witness: with two collections and a transport that fails on the
second tarball, the first remains uploaded and the error names the second. -/
theorem claim6_upload_failure_aborts_witness :
    (push (some "t") ["lib1"] none "sky130" "1.0" true ["v"]
        [⟨["pdk", "a.txt"], true, "A"⟩,
          ⟨["pdk", "libs.ref", "lib1", "x.lef"], true, "X"⟩] "td"
        (fun s => !(s == "td/lib1.tar.zst"))).outcome =
      .error (.uploadFailed "td/lib1.tar.zst") ∧
    (push (some "t") ["lib1"] none "sky130" "1.0" true ["v"]
        [⟨["pdk", "a.txt"], true, "A"⟩,
          ⟨["pdk", "libs.ref", "lib1", "x.lef"], true, "X"⟩] "td"
        (fun s => !(s == "td/lib1.tar.zst"))).uploaded =
      ["td/common.tar.zst"] :=
  claim6_upload_failure_aborts "t" ["lib1"] none "sky130" "1.0" ["v"]
    [⟨["pdk", "a.txt"], true, "A"⟩,
      ⟨["pdk", "libs.ref", "lib1", "x.lef"], true, "X"⟩] "td"
    (fun s => !(s == "td/lib1.tar.zst"))
    [("common", [[ "v", "pdk", "a.txt" ]]),
      ("lib1", [[ "v", "pdk", "libs.ref", "lib1", "x.lef" ]])]
    ["td/common.tar.zst", "td/lib1.tar.zst"] 1 rfl rfl (by decide)
    (by
      intro i hi
      have h₀ : i = 0 := Nat.lt_one_iff.mp hi
      subst h₀
      rfl)
    rfl

/-- C7: for every collection of a successful partition, the archive's entry
names are, in stored-list order, exactly the files' paths relative to the
version directory; and every stored path is the version directory plus the
relative path of a regular tree entry, whose relative path — not the absolute
one — is the entry name. -/
theorem claim7_entry_names_relative (ll vdir : List String) (tree : List Entry)
    (cols : List (String × List (List String))) (name : String)
    (files : List (List String)) (p : List String)
    (hok : partition ll vdir tree = .ok cols)
    (hc : (name, files) ∈ cols) (hp : p ∈ files) :
    (buildArchive vdir tree name files).entries.map Prod.fst =
      files.map (relpathFrom vdir) ∧
    ∃ e, e ∈ tree ∧ e.isFile = true ∧ p = vdir ++ e.rel ∧
      relpathFrom vdir p = e.rel := by
  constructor
  · simp only [buildArchive, List.map_map]
    rfl
  · have hmem : p ∈ allStored cols := by
      unfold allStored
      rw [List.mem_flatten]
      exact ⟨files, List.mem_map_of_mem Prod.snd hc, hp⟩
    rw [mem_allStored_iff ll vdir tree cols hok] at hmem
    obtain ⟨e, he, hf, rfl, _⟩ := (mem_keptPaths ll vdir tree _).mp hmem
    exact ⟨e, he, hf, rfl, relpathFrom_append vdir e.rel⟩

/-- C7, witness at a concrete collection and stored file. -/
theorem claim7_entry_names_relative_witness :
    (buildArchive ["v"]
        [⟨["pdk", "a.txt"], true, "A"⟩,
          ⟨["pdk", "libs.ref", "lib1", "x.lef"], true, "X"⟩] "lib1"
        [[ "v", "pdk", "libs.ref", "lib1", "x.lef" ]]).entries.map Prod.fst =
      [[ "v", "pdk", "libs.ref", "lib1", "x.lef" ]].map (relpathFrom ["v"]) ∧
    ∃ e, e ∈ ([⟨["pdk", "a.txt"], true, "A"⟩,
        ⟨["pdk", "libs.ref", "lib1", "x.lef"], true, "X"⟩] : List Entry) ∧
      e.isFile = true ∧
      ["v", "pdk", "libs.ref", "lib1", "x.lef"] = ["v"] ++ e.rel ∧
      relpathFrom ["v"] ["v", "pdk", "libs.ref", "lib1", "x.lef"] = e.rel :=
  claim7_entry_names_relative ["lib1"] ["v"]
    [⟨["pdk", "a.txt"], true, "A"⟩,
      ⟨["pdk", "libs.ref", "lib1", "x.lef"], true, "X"⟩]
    [("common", [[ "v", "pdk", "a.txt" ]]),
      ("lib1", [[ "v", "pdk", "libs.ref", "lib1", "x.lef" ]])]
    "lib1" [[ "v", "pdk", "libs.ref", "lib1", "x.lef" ]]
    ["v", "pdk", "libs.ref", "lib1", "x.lef"] rfl (by decide) (by decide)

/-- C8, counterexample: the tree with the single regular top-level file
`a.txt` makes the partition raise the IndexError, so there is no partition
result containing `"common"` and no archive — common included — is produced. -/
theorem claim8_common_always_cex :
    partition ["lib1"] ["v"] [⟨["a.txt"], true, "A"⟩] = .error () ∧
    push (some "t") ["lib1"] none "sky130" "1.0" true ["v"]
      [⟨["a.txt"], true, "A"⟩] "td" (fun _ => true) =
      ⟨[], none, [], .error .indexError⟩ :=
  ⟨rfl, rfl⟩

/-- C8, amended: whenever the partition completes — in particular on the empty
tree, for any allow-list — the `"common"` collection is present (first, as the
base collection) and a `common.tar.zst` archive is among the produced
archives; the empty tree always yields exactly the empty `"common"`
collection. -/
theorem claim8_common_present (ll vdir : List String) (tree : List Entry)
    (cols : List (String × List (List String)))
    (hok : partition ll vdir tree = .ok cols) :
    (∃ l rest, cols = ("common", l) :: rest) ∧
    "common" ∈ cols.map Prod.fst ∧
    tarballName "common" ∈
      ((cols.map (fun c => buildArchive vdir tree c.1 c.2)).map Archive.name) ∧
    partition ll vdir [] = .ok [("common", [])] := by
  obtain ⟨l, rest, rfl⟩ := partition_common_head ll vdir tree cols hok
  refine ⟨⟨l, rest, rfl⟩, by simp, ?_, rfl⟩
  simp [buildArchive]

/-- C8, witness for the amended theorem at a concrete nonempty tree. -/
theorem claim8_common_present_witness :
    (∃ l rest, [("common", [[ "v", "pdk", "a.txt" ]])] = ("common", l) :: rest) ∧
    "common" ∈ [("common", [[ "v", "pdk", "a.txt" ]])].map Prod.fst ∧
    tarballName "common" ∈
      (([("common", [[ "v", "pdk", "a.txt" ]])].map
        (fun c => buildArchive ["v"] [⟨["pdk", "a.txt"], true, "A"⟩] c.1 c.2)).map
        Archive.name) ∧
    partition ["lib1"] ["v"] ([] : List Entry) = .ok [("common", [])] :=
  claim8_common_present ["lib1"] ["v"] [⟨["pdk", "a.txt"], true, "A"⟩]
    [("common", [[ "v", "pdk", "a.txt" ]])] rfl

/-- C9: on the successful path, the release tag used by `push` is
`<family>-<version>` and each collection's archive file is named
`<collection>.tar.zst`. -/
theorem claim9_tag_and_archive_names (tok : String) (allLibraries : List String)
    (pushLibraries : Option (List String)) (pdkFamily version : String)
    (vdir : List String) (tree : List Entry) (tdir : String)
    (uploadOk : String → Bool) (cols : List (String × List (List String)))
    (hok : partition (effectiveLibraries allLibraries pushLibraries) vdir tree =
      .ok cols) :
    (push (some tok) allLibraries pushLibraries pdkFamily version true vdir
        tree tdir uploadOk).tag = some (pdkFamily ++ "-" ++ version) ∧
    (push (some tok) allLibraries pushLibraries pdkFamily version true vdir
        tree tdir uploadOk).archives.map Archive.name =
      cols.map (fun c => c.1 ++ ".tar.zst") := by
  rw [push_ok_unfold tok allLibraries pushLibraries pdkFamily version vdir
    tree tdir uploadOk cols hok]
  refine ⟨rfl, ?_⟩
  simp only [List.map_map]
  rfl

/-- C9, witness at a concrete invocation. -/
theorem claim9_tag_and_archive_names_witness :
    (push (some "t") ["lib1"] none "sky130" "1.0" true ["v"]
        ([] : List Entry) "td" (fun _ => true)).tag = some "sky130-1.0" ∧
    (push (some "t") ["lib1"] none "sky130" "1.0" true ["v"]
        ([] : List Entry) "td" (fun _ => true)).archives.map Archive.name =
      [("common", ([] : List (List String)))].map (fun c => c.1 ++ ".tar.zst") :=
  claim9_tag_and_archive_names "t" ["lib1"] none "sky130" "1.0" ["v"]
    ([] : List Entry) "td" (fun _ => true) [("common", [])] rfl

/-- C10: passing no library subset — `None` or the empty list — makes `push`
behave exactly as if the family's full library set had been passed. -/
theorem claim10_default_library_set (githubToken : Option String)
    (allLibraries : List String) (pdkFamily version : String)
    (versionDirIsDir : Bool) (versionDirectory : List String)
    (tree : List Entry) (tarballDirectory : String) (uploadOk : String → Bool) :
    push githubToken allLibraries none pdkFamily version versionDirIsDir
        versionDirectory tree tarballDirectory uploadOk =
      push githubToken allLibraries (some allLibraries) pdkFamily version
        versionDirIsDir versionDirectory tree tarballDirectory uploadOk ∧
    push githubToken allLibraries (some []) pdkFamily version versionDirIsDir
        versionDirectory tree tarballDirectory uploadOk =
      push githubToken allLibraries (some allLibraries) pdkFamily version
        versionDirIsDir versionDirectory tree tarballDirectory uploadOk := by
  constructor <;>
    simp only [push, effectiveLibraries_none, effectiveLibraries_some_nil,
      effectiveLibraries_self]

end Ciel
